import Mathlib

/-!
Verification of the twilight wire-codec core: the dual-engine gateway event
decoder (`src/gateway/src/shard/json.rs`), the `PermissionOverwrite`
discriminated-identifier codec (`src/model/src/channel/permission_overwrite.rs`)
and the `EmbedImage` field codec (`src/model/src/channel/embed/image.rs`).

The JSON wire format is embedded as an executable syntax tree with a
fuel-indexed parser and renderer; the codecs are translated from the Rust
source, with collaborators that live outside the provided sources
(the seeded `GatewayEventDeserializer`, the `Permissions` and id codecs)
modelled from the specification, as marked on their doc comments.
-/

-- Equality of fallible results is decidable componentwise; used to
-- evaluate the codecs at concrete inputs.
deriving instance DecidableEq for Except

/-! ## Decimal digit strings

Rust renders the integers of this codec in decimal (`u64`/`u128` `Display`),
and parses them with `str::parse` / the flag set's textual codec.
-/

/-- The ASCII digit character for a digit value `d < 10`. -/
def digitCharOf (d : Nat) : Char := Char.ofNat (48 + d)

/-- The numeric value of an ASCII digit character. -/
def digitVal (c : Char) : Nat := c.toNat - 48

/-- Accumulator loop for rendering a natural number in decimal
(least-significant digit is peeled off first, so the accumulator ends
in most-significant-first order).  The fuel argument only bounds the
number of divisions and is always supplied amply. -/
def natToCharsAux : Nat → Nat → List Char → List Char
  | 0, _, acc => acc
  | fuel + 1, n, acc =>
    if n = 0 then acc else natToCharsAux fuel (n / 10) (digitCharOf (n % 10) :: acc)

/-- Decimal rendering of a natural number, as Rust's `Display` for
unsigned integers produces it (no sign, no leading zeros, `0` for zero). -/
def natToChars (n : Nat) : List Char :=
  if n = 0 then '0' :: [] else natToCharsAux (n + 1) n []

/-- Decimal rendering of a natural number, packaged as a string. -/
def natToStr (n : Nat) : String := String.mk (natToChars n)

/-- Numeric value of a list of ASCII digit characters, most significant
first. -/
def digitsVal (cs : List Char) : Nat :=
  cs.foldl (fun a c => 10 * a + digitVal c) 0

/-- Parse a nonempty all-digit character list into a natural number;
arbitrary precision.  Used by the modelled flag-set textual codec. -/
def parseNatDigits (cs : List Char) : Option Nat :=
  if cs = [] then none
  else if cs.all Char.isDigit then some (digitsVal cs) else none

/-- The error cases of Rust's integer parsing (`std::num::IntErrorKind`)
reachable from `str::parse::<u64>`: the empty input, a character that is
not a digit of the value (for an unsigned type this includes a leading
`-`, which `from_str_radix` strips only for signed types), and positive
overflow. -/
inductive ParseIntErr where
  | empty
  | invalidDigit
  | posOverflow
deriving DecidableEq, Repr

/-- Rust's `str::parse::<u64>`: an optional single leading `+`, then one
or more ASCII digits; the value must fit in 64 bits.  The empty input
fails with `Empty`; a `+` with nothing after it fails with
`InvalidDigit`; a `-` is not a sign for an unsigned type, so any
`-`-prefixed input fails with `InvalidDigit`. -/
def parseU64 (s : List Char) : Except ParseIntErr Nat :=
  match s with
  | [] => .error .empty
  | c :: rest =>
    let digits := if c = '+' then rest else s
    if digits = [] then .error .invalidDigit
    else if digits.all Char.isDigit then
      let n := digitsVal digits
      if n < 2 ^ 64 then .ok n else .error .posOverflow
    else .error .invalidDigit

/-! ## The JSON wire syntax

A syntax tree for the textual wire format, an executable renderer and an
executable parser.  Numbers on the wire in this codec are unsigned
integers, which is all the claims exercise; the parser accepts compact
documents (the shape both codecs' own encoders emit). -/

/-- JSON syntax tree. -/
inductive Json where
  | null
  | bool (b : Bool)
  | num (n : Nat)
  | str (s : String)
  | arr (elems : List Json)
  | obj (entries : List (String × Json))

/-- String-body escaping on render: quote and backslash are escaped. -/
def escapeChars : List Char → List Char
  | [] => []
  | c :: rest =>
    if c = '"' ∨ c = '\\' then '\\' :: c :: escapeChars rest else c :: escapeChars rest

/-- Comma-separated concatenation. -/
def commaJoin : List (List Char) → List Char
  | [] => []
  | [final] => final
  | chunk :: next :: rest => chunk ++ ',' :: commaJoin (next :: rest)

/-- Compact JSON rendering (`serde_json::to_string`): fixed entry order,
no insignificant whitespace.  The fuel argument bounds the nesting depth
and is always supplied beyond the depth of the value at every use site. -/
def renderJson : Nat → Json → List Char
  | 0, _ => []
  | fuel + 1, j =>
    match j with
    | .null => "null".data
    | .bool true => "true".data
    | .bool false => "false".data
    | .num n => natToChars n
    | .str s => '"' :: (escapeChars s.data ++ ['"'])
    | .arr es => '[' :: (commaJoin (es.map (renderJson fuel)) ++ [']'])
    | .obj ms =>
      '{' :: (commaJoin (ms.map (fun kv =>
        '"' :: (escapeChars kv.1.data ++ ('"' :: ':' :: renderJson fuel kv.2)))) ++ ['}'])

/-- Parse a JSON string body after its opening quote: returns the
unescaped content and the remainder after the closing quote. -/
def parseStringBody : List Char → Option (List Char × List Char)
  | [] => none
  | c :: rest =>
    if c = '"' then some ([], rest)
    else if c = '\\' then
      match rest with
      | [] => none
      | e :: rest' =>
        let u : Option Char :=
          if e = '"' then some '"'
          else if e = '\\' then some '\\'
          else if e = '/' then some '/'
          else if e = 'n' then some '\n'
          else if e = 't' then some '\t'
          else if e = 'r' then some '\r'
          else none
        match u with
        | some uc => (parseStringBody rest').map (fun p => (uc :: p.1, p.2))
        | none => none
    else (parseStringBody rest).map (fun p => (c :: p.1, p.2))

mutual

/-- Parse one JSON value; returns the value and the unconsumed remainder.
The fuel bounds the nesting recursion. -/
def parseValue : Nat → List Char → Option (Json × List Char)
  | 0, _ => none
  | fuel + 1, cs =>
    match cs with
    | [] => none
    | c :: rest =>
      if c.isDigit then
        some (.num (digitsVal (List.takeWhile Char.isDigit cs)),
              List.dropWhile Char.isDigit cs)
      else if c = '"' then
        (parseStringBody rest).map (fun p => (.str (String.mk p.1), p.2))
      else if c = '{' then
        match rest with
        | [] => none
        | d :: rest' =>
          if d = '}' then some (.obj [], rest')
          else (parseMembers fuel (d :: rest')).map (fun p => (.obj p.1, p.2))
      else if c = '[' then
        match rest with
        | [] => none
        | d :: rest' =>
          if d = ']' then some (.arr [], rest')
          else (parseElems fuel (d :: rest')).map (fun p => (.arr p.1, p.2))
      else
        match cs with
        | 'n' :: 'u' :: 'l' :: 'l' :: r => some (.null, r)
        | 't' :: 'r' :: 'u' :: 'e' :: r => some (.bool true, r)
        | 'f' :: 'a' :: 'l' :: 's' :: 'e' :: r => some (.bool false, r)
        | _ => none

/-- Parse the members of a nonempty JSON object, after its opening brace. -/
def parseMembers : Nat → List Char → Option (List (String × Json) × List Char)
  | 0, _ => none
  | fuel + 1, cs =>
    match cs with
    | [] => none
    | c :: rest =>
      if c = '"' then
        match parseStringBody rest with
        | none => none
        | some (key, afterKey) =>
          match afterKey with
          | [] => none
          | d :: afterColon =>
            if d = ':' then
              match parseValue fuel afterColon with
              | none => none
              | some (v, afterVal) =>
                match afterVal with
                | [] => none
                | e :: afterSep =>
                  if e = ',' then
                    (parseMembers fuel afterSep).map
                      (fun p => ((String.mk key, v) :: p.1, p.2))
                  else if e = '}' then some ([(String.mk key, v)], afterSep)
                  else none
            else none
      else none

/-- Parse the elements of a nonempty JSON array, after its opening bracket. -/
def parseElems : Nat → List Char → Option (List Json × List Char)
  | 0, _ => none
  | fuel + 1, cs =>
    match parseValue fuel cs with
    | none => none
    | some (v, afterVal) =>
      match afterVal with
      | [] => none
      | e :: afterSep =>
        if e = ',' then
          (parseElems fuel afterSep).map (fun p => (v :: p.1, p.2))
        else if e = ']' then some ([v], afterSep)
        else none

end

/-- Parse a complete JSON document: one value consuming the whole input. -/
def jsonParse (cs : List Char) : Option Json :=
  match parseValue (cs.length + 6) cs with
  | some (j, []) => some j
  | _ => none

/-- The keys of a JSON object, in entry order. -/
def Json.objKeys : Json → List String
  | .obj ms => ms.map Prod.fst
  | _ => []

/-- Look up the first entry with the given key in a JSON object. -/
def Json.objLookup (j : Json) (k : String) : Option Json :=
  match j with
  | .obj ms => (ms.find? (fun kv => kv.1 = k)).map Prod.snd
  | _ => none

/-- Whether a JSON value is `null`. -/
def Json.isNull : Json → Bool
  | .null => true
  | _ => false

/-! ## The gateway event decode engines

`src/gateway/src/shard/json.rs` defines one `parse_gateway_event` per
engine.  Both seed a `GatewayEventDeserializer` with the pre-scanned
header triple and feed it the message text.  The seeded deserializer and
the `GatewayEvent` type live in `twilight_model::gateway::event`, which is
not among the provided sources, so they are modelled from the
specification. -/

/-- Modelled from the spec: failure of the seeded decoder — "the
structure required by the header-selected variant is absent/mismatched". -/
inductive SeedError where
  | structureMismatch
deriving DecidableEq, Repr

/-- Modelled from the spec: a decoded gateway event — "a closed set of
variants, opaque to this core beyond: the decoder that knows how to build
one of these, given header hints, exists".  Opaque to the engines, it
carries the header triple and the decoded body. -/
structure GatewayEvent where
  op : Nat
  sequence : Option Nat
  eventType : Option String
  payload : Json

/-- Modelled from the spec: the seeded `GatewayEventDeserializer` of
`twilight_model::gateway::event` (not among the provided sources) — "uses
the header to pick which concrete event-variant decoder to invoke for the
body"; it fails when the envelope is not the structured shape the header
demands. -/
def GatewayEventDeserializer.deserialize (op : Nat) (sequence : Option Nat)
    (eventType : Option String) (body : Json) : Except SeedError GatewayEvent :=
  match body with
  | .obj _ => .ok ⟨op, sequence, eventType, body⟩
  | _ => .error .structureMismatch

/-- The engine-level JSON error (`serde_json::Error` respectively
`simd_json::Error`): either a syntax error of the text, or an error
raised by the seeded deserializer. -/
inductive JsonError where
  | synErr
  | custom (e : SeedError)
deriving DecidableEq, Repr

/-- `GatewayEventParsingError` of `src/gateway/src/shard/json.rs`. -/
inductive GatewayEventParsingError where
  /-- Deserializing the GatewayEvent payload from JSON failed. -/
  | deserializing (source : JsonError)
  /-- The payload was an unrecognized or invalid structure. -/
  | payloadInvalid
deriving DecidableEq, Repr

/-- The byte-preserving engine: `parse_gateway_event` compiled without
`simd-json` (json.rs lines 57-79).  The text is streamed through the
seeded deserializer; every failure — syntax or structure — surfaces as
`Deserializing { source }`. -/
def parse_gateway_event_serde (op : Nat) (sequence : Option Nat)
    (event_type : Option String) (json : String) :
    Except GatewayEventParsingError GatewayEvent :=
  match jsonParse json.data with
  | none => .error (.deserializing .synErr)
  | some j =>
    match GatewayEventDeserializer.deserialize op sequence event_type j with
    | .error e => .error (.deserializing (.custom e))
    | .ok v => .ok v

/-- The in-place mutating engine: `parse_gateway_event` compiled with
`simd-json` (json.rs lines 93-124).  `simd_json::Deserializer::from_slice`
first parses the whole buffer; a syntax failure there is mapped to
`PayloadInvalid`.  Only then does the seeded deserializer run, whose
failures are mapped to `Deserializing { source }`. -/
def parse_gateway_event_simd (op : Nat) (sequence : Option Nat)
    (event_type : Option String) (json : String) :
    Except GatewayEventParsingError GatewayEvent :=
  match jsonParse json.data with
  | none => .error .payloadInvalid
  | some j =>
    match GatewayEventDeserializer.deserialize op sequence event_type j with
    | .error e => .error (.deserializing (.custom e))
    | .ok v => .ok v

/-! ## The `PermissionOverwrite` codec

Translated from `src/model/src/channel/permission_overwrite.rs`. -/

/-- `UserId` (`twilight_model::id`): a newtype over `u64`. -/
structure UserId where
  val : Nat
deriving DecidableEq, Repr

/-- `RoleId` (`twilight_model::id`): a newtype over `u64`. -/
structure RoleId where
  val : Nat
deriving DecidableEq, Repr

/-- `Permissions` (`twilight_model::guild`): a bitflag set whose bits are
carried here as an unbounded natural number, the spec's
"128+-bit-capacity bitflag set". -/
abbrev Permissions := Nat

/-- `PermissionOverwriteType`: the discriminated union over the two
identifier domains. -/
inductive PermissionOverwriteType where
  | member (id : UserId)
  | role (id : RoleId)
deriving DecidableEq, Repr

/-- `PermissionOverwrite`. -/
structure PermissionOverwrite where
  allow : Permissions
  deny : Permissions
  kind : PermissionOverwriteType
deriving DecidableEq, Repr

/-- `PermissionOverwriteTypeName`: the wire discriminant,
`Member = 1, Role = 0` (`serde_repr`). -/
inductive PermissionOverwriteTypeName where
  | member
  | role
deriving DecidableEq, Repr

/-- The `u8` value of the discriminant (`PermissionOverwriteTypeName as u8`). -/
def PermissionOverwriteTypeName.toU8 : PermissionOverwriteTypeName → Nat
  | .member => 1
  | .role => 0

/-- The deserialization error of the codec, covering the failure shapes of
`serde_json::Error` the codec produces; every one of them is the spec's
`Malformed`. -/
inductive DeError where
  /-- The document is not syntactically valid. -/
  | synErr
  /-- A field (or the document) has the wrong JSON type. -/
  | invalidType
  /-- A struct field appeared twice. -/
  | duplicateField (k : String)
  /-- A required struct field is absent. -/
  | missingField (k : String)
  /-- The flag-set textual codec rejected its input. -/
  | invalidFlags
  /-- The `type` discriminant is no variant of `PermissionOverwriteTypeName`. -/
  | invalidDiscriminant (n : Nat)
  /-- `DeError::custom(parse_error)`: the `id` string failed integer parsing;
  carries the parse cause. -/
  | parseIntErr (cause : ParseIntErr)
deriving DecidableEq, Repr

/-- Modelled from the spec: the `Permissions` deserializer
(`twilight_model::guild::Permissions`, not among the provided sources) —
"decoded through the bitflag set's own textual-integer codec
(arbitrary-precision safe)": a JSON string holding a decimal integer. -/
def Permissions.deserialize (j : Json) : Except DeError Permissions :=
  match j with
  | .str s =>
    match parseNatDigits s.data with
    | some n => .ok n
    | none => .error .invalidFlags
  | _ => .error .invalidType

/-- Modelled from the spec: the `Permissions` serializer — "emit `allow`,
`deny` as their textual-integer form". -/
def Permissions.serialize (n : Permissions) : Json := .str (natToStr n)

/-- The decode of the discriminant field (`Deserialize_repr` over
`PermissionOverwriteTypeName`): the integers 1 and 0 name the two
variants, every other value is rejected. -/
def PermissionOverwriteTypeName.deserialize (j : Json) :
    Except DeError PermissionOverwriteTypeName :=
  match j with
  | .num 1 => .ok .member
  | .num 0 => .ok .role
  | .num n => .error (.invalidDiscriminant n)
  | _ => .error .invalidType

/-- `PermissionOverwriteData`: the intermediate struct the derived
deserializer fills (`allow`, `deny`, `id` as raw text, `type`). -/
structure PermissionOverwriteData where
  allow : Permissions
  deny : Permissions
  id : String
  kind : PermissionOverwriteTypeName
deriving DecidableEq, Repr

/-- The in-flight state of the derived map deserializer for
`PermissionOverwriteData`: each field is absent until its key is seen. -/
structure OverwriteAcc where
  allow : Option Permissions
  deny : Option Permissions
  id : Option String
  kind : Option PermissionOverwriteTypeName
deriving DecidableEq, Repr

/-- The empty accumulator. -/
def OverwriteAcc.init : OverwriteAcc := ⟨none, none, none, none⟩

/-- One step of the derived map deserializer: dispatch on the key,
decode the value into the matching field, reject a duplicate key,
skip an unknown key. -/
def stepOverwriteEntry (acc : OverwriteAcc) (e : String × Json) :
    Except DeError OverwriteAcc :=
  if e.1 = "allow" then
    match acc.allow with
    | some _ => .error (.duplicateField "allow")
    | none =>
      match Permissions.deserialize e.2 with
      | .error err => .error err
      | .ok n => .ok { acc with allow := some n }
  else if e.1 = "deny" then
    match acc.deny with
    | some _ => .error (.duplicateField "deny")
    | none =>
      match Permissions.deserialize e.2 with
      | .error err => .error err
      | .ok n => .ok { acc with deny := some n }
  else if e.1 = "id" then
    match acc.id with
    | some _ => .error (.duplicateField "id")
    | none =>
      match e.2 with
      | .str s => .ok { acc with id := some s }
      | _ => .error .invalidType
  else if e.1 = "type" then
    match acc.kind with
    | some _ => .error (.duplicateField "type")
    | none =>
      match PermissionOverwriteTypeName.deserialize e.2 with
      | .error err => .error err
      | .ok k => .ok { acc with kind := some k }
  else .ok acc

/-- Fold the map deserializer over the object entries in wire order. -/
def foldOverwriteEntries (acc : OverwriteAcc) :
    List (String × Json) → Except DeError OverwriteAcc
  | [] => .ok acc
  | e :: rest =>
    match stepOverwriteEntry acc e with
    | .error err => .error err
    | .ok acc' => foldOverwriteEntries acc' rest

/-- Finish the derived deserializer: every field must have been seen,
checked in declaration order. -/
def finishOverwriteData (acc : OverwriteAcc) :
    Except DeError PermissionOverwriteData :=
  match acc.allow with
  | none => .error (.missingField "allow")
  | some a =>
    match acc.deny with
    | none => .error (.missingField "deny")
    | some d =>
      match acc.id with
      | none => .error (.missingField "id")
      | some i =>
        match acc.kind with
        | none => .error (.missingField "type")
        | some k => .ok ⟨a, d, i, k⟩

/-- The derived `Deserialize` of `PermissionOverwriteData`: the document
must be an object; its entries are folded in order. -/
def PermissionOverwriteData.deserialize (j : Json) :
    Except DeError PermissionOverwriteData :=
  match j with
  | .obj entries =>
    match foldOverwriteEntries OverwriteAcc.init entries with
    | .error err => .error err
    | .ok acc => finishOverwriteData acc
  | _ => .error .invalidType

/-- `impl Deserialize for PermissionOverwrite` (lines 42-70): decode the
data struct, then re-type `id` through `str::parse::<u64>` into the
identifier domain the discriminant selects, wrapping a parse failure via
`DeError::custom`. -/
def PermissionOverwrite.deserialize (j : Json) :
    Except DeError PermissionOverwrite :=
  match PermissionOverwriteData.deserialize j with
  | .error err => .error err
  | .ok data =>
    match data.kind with
    | .member =>
      match parseU64 data.id.data with
      | .error cause => .error (.parseIntErr cause)
      | .ok n => .ok ⟨data.allow, data.deny, .member ⟨n⟩⟩
    | .role =>
      match parseU64 data.id.data with
      | .error cause => .error (.parseIntErr cause)
      | .ok n => .ok ⟨data.allow, data.deny, .role ⟨n⟩⟩

/-- Modelled from the spec: the id serializer (`UserId`/`RoleId` of
`twilight_model::id`, not among the provided sources) — "then `id` (the
wrapped integer, as text)". -/
def idSerialize (n : Nat) : Json := .str (natToStr n)

/-- `impl Serialize for PermissionOverwrite` (lines 72-92): a four-field
struct in the fixed order `allow`, `deny`, `id`, `type`, the discriminant
emitted as its `u8` value. -/
def PermissionOverwrite.serialize (x : PermissionOverwrite) : Json :=
  match x.kind with
  | .member id =>
    .obj [("allow", Permissions.serialize x.allow),
          ("deny", Permissions.serialize x.deny),
          ("id", idSerialize id.val),
          ("type", .num PermissionOverwriteTypeName.member.toU8)]
  | .role id =>
    .obj [("allow", Permissions.serialize x.allow),
          ("deny", Permissions.serialize x.deny),
          ("id", idSerialize id.val),
          ("type", .num PermissionOverwriteTypeName.role.toU8)]

/-- `serde_json::from_str::<PermissionOverwrite>`. -/
def PermissionOverwrite.fromStr (s : String) :
    Except DeError PermissionOverwrite :=
  match jsonParse s.data with
  | none => .error .synErr
  | some j => PermissionOverwrite.deserialize j

/-- `serde_json::to_string` of a `PermissionOverwrite` (the serialized
tree has depth two, far below the rendering fuel supplied). -/
def PermissionOverwrite.toStr (x : PermissionOverwrite) : String :=
  String.mk (renderJson 4 (PermissionOverwrite.serialize x))

/-- The wire object of the overwrite codec with the canonical key order,
used to state properties of the decoder. -/
def overwriteWire (a d i : String) (t : Json) : Json :=
  .obj [("allow", .str a), ("deny", .str d), ("id", .str i), ("type", t)]

/-- Validity of a `PermissionOverwrite` value: the wrapped identifier
fits the 64-bit width its Rust type guarantees. -/
def PermissionOverwrite.valid (x : PermissionOverwrite) : Prop :=
  match x.kind with
  | .member id => id.val < 2 ^ 64
  | .role id => id.val < 2 ^ 64

instance (x : PermissionOverwrite) : Decidable x.valid := by
  unfold PermissionOverwrite.valid
  match x.kind with
  | .member id => exact inferInstanceAs (Decidable (id.val < 2 ^ 64))
  | .role id => exact inferInstanceAs (Decidable (id.val < 2 ^ 64))

/-! ## The `EmbedImage` codec

Translated from `src/model/src/channel/embed/image.rs`: a plain derived
`Serialize`/`Deserialize` over four optional fields. -/

/-- `EmbedImage`. -/
structure EmbedImage where
  height : Option Nat
  proxy_url : Option String
  url : Option String
  width : Option Nat
deriving DecidableEq, Repr

/-- The derived `Serialize` of `EmbedImage`: all four fields in
declaration order, an absent option as `null`. -/
def EmbedImage.serializeEntries (x : EmbedImage) : List (String × Json) :=
  [("height", match x.height with | some n => .num n | none => .null),
   ("proxy_url", match x.proxy_url with | some s => .str s | none => .null),
   ("url", match x.url with | some s => .str s | none => .null),
   ("width", match x.width with | some n => .num n | none => .null)]

/-- The derived `Serialize` of `EmbedImage`, as a JSON object. -/
def EmbedImage.serialize (x : EmbedImage) : Json :=
  .obj x.serializeEntries

/-- Decode an `Option<u64>` field value: `null` is the absent value, an
integer must fit 64 bits. -/
def optU64Deserialize (j : Json) : Except DeError (Option Nat) :=
  match j with
  | .null => .ok none
  | .num n => if n < 2 ^ 64 then .ok (some n) else .error .invalidType
  | _ => .error .invalidType

/-- Decode an `Option<String>` field value. -/
def optStrDeserialize (j : Json) : Except DeError (Option String) :=
  match j with
  | .null => .ok none
  | .str s => .ok (some s)
  | _ => .error .invalidType

/-- The in-flight state of the derived map deserializer for `EmbedImage`:
`none` marks a key not yet seen, the inner option is the decoded field. -/
structure ImageAcc where
  height : Option (Option Nat)
  proxy_url : Option (Option String)
  url : Option (Option String)
  width : Option (Option Nat)
deriving DecidableEq, Repr

/-- The empty accumulator. -/
def ImageAcc.init : ImageAcc := ⟨none, none, none, none⟩

/-- One step of the derived map deserializer for `EmbedImage`. -/
def stepImageEntry (acc : ImageAcc) (e : String × Json) :
    Except DeError ImageAcc :=
  if e.1 = "height" then
    match acc.height with
    | some _ => .error (.duplicateField "height")
    | none =>
      match optU64Deserialize e.2 with
      | .error err => .error err
      | .ok v => .ok { acc with height := some v }
  else if e.1 = "proxy_url" then
    match acc.proxy_url with
    | some _ => .error (.duplicateField "proxy_url")
    | none =>
      match optStrDeserialize e.2 with
      | .error err => .error err
      | .ok v => .ok { acc with proxy_url := some v }
  else if e.1 = "url" then
    match acc.url with
    | some _ => .error (.duplicateField "url")
    | none =>
      match optStrDeserialize e.2 with
      | .error err => .error err
      | .ok v => .ok { acc with url := some v }
  else if e.1 = "width" then
    match acc.width with
    | some _ => .error (.duplicateField "width")
    | none =>
      match optU64Deserialize e.2 with
      | .error err => .error err
      | .ok v => .ok { acc with width := some v }
  else .ok acc

/-- Fold the map deserializer over the object entries in wire order. -/
def foldImageEntries (acc : ImageAcc) :
    List (String × Json) → Except DeError ImageAcc
  | [] => .ok acc
  | e :: rest =>
    match stepImageEntry acc e with
    | .error err => .error err
    | .ok acc' => foldImageEntries acc' rest

/-- The derived `Deserialize` of `EmbedImage`: the document must be an
object; an `Option` field whose key never appeared defaults to the
absent value. -/
def EmbedImage.deserialize (j : Json) : Except DeError EmbedImage :=
  match j with
  | .obj entries =>
    match foldImageEntries ImageAcc.init entries with
    | .error err => .error err
    | .ok acc =>
      .ok ⟨acc.height.getD none, acc.proxy_url.getD none,
           acc.url.getD none, acc.width.getD none⟩
  | _ => .error .invalidType

/-! ## Key-order independence: auxiliary notions

The derived map deserializer of `PermissionOverwriteData` dispatches on
keys, so the wire order of the four fields is immaterial; these notions
let that be stated and proved. -/

/-- A wire entry carrying one of the four canonical overwrite fields with
a value its field deserializer accepts. -/
def GoodOverwriteEntry (e : String × Json) : Prop :=
  (e.1 = "allow" ∧ ∃ s n, e.2 = Json.str s ∧ parseNatDigits s.data = some n) ∨
  (e.1 = "deny" ∧ ∃ s n, e.2 = Json.str s ∧ parseNatDigits s.data = some n) ∨
  (e.1 = "id" ∧ ∃ s, e.2 = Json.str s) ∨
  (e.1 = "type" ∧ (e.2 = Json.num 0 ∨ e.2 = Json.num 1))

/-- Whether the accumulator already holds the field a key selects. -/
def OverwriteAcc.fieldSet (acc : OverwriteAcc) (k : String) : Bool :=
  if k = "allow" then acc.allow.isSome
  else if k = "deny" then acc.deny.isSome
  else if k = "id" then acc.id.isSome
  else if k = "type" then acc.kind.isSome
  else false

/-- The update a successfully processed entry performs on the
accumulator. -/
def OverwriteAcc.update (acc : OverwriteAcc) (e : String × Json) : OverwriteAcc :=
  if e.1 = "allow" then { acc with allow := (Permissions.deserialize e.2).toOption }
  else if e.1 = "deny" then { acc with deny := (Permissions.deserialize e.2).toOption }
  else if e.1 = "id" then
    { acc with id := match e.2 with | .str s => some s | _ => none }
  else if e.1 = "type" then
    { acc with kind := (PermissionOverwriteTypeName.deserialize e.2).toOption }
  else acc

/-! ## Lemmas: decimal digit strings -/

theorem digitCharOf_isDigit {d : Nat} (h : d < 10) :
    (digitCharOf d).isDigit = true := by
  interval_cases d <;> decide

theorem digitVal_digitCharOf {d : Nat} (h : d < 10) :
    digitVal (digitCharOf d) = d := by
  interval_cases d <;> decide

theorem isDigit_ne_of {c x : Char} (h : c.isDigit = true)
    (hx : x.isDigit = false) : c ≠ x := by
  intro hc
  rw [hc, hx] at h
  exact Bool.false_ne_true h

theorem natToCharsAux_acc (fuel : Nat) :
    ∀ n acc, natToCharsAux fuel n acc = natToCharsAux fuel n [] ++ acc := by
  induction fuel with
  | zero => intro n acc; rfl
  | succ f ih =>
    intro n acc
    by_cases h : n = 0
    · simp [natToCharsAux, h]
    · simp only [natToCharsAux, if_neg h]
      rw [ih (n / 10) (digitCharOf (n % 10) :: acc),
        ih (n / 10) [digitCharOf (n % 10)]]
      simp

theorem natToCharsAux_mem (fuel : Nat) :
    ∀ n c, c ∈ natToCharsAux fuel n [] → ∃ d, d < 10 ∧ c = digitCharOf d := by
  induction fuel with
  | zero => intro n c hc; simp [natToCharsAux] at hc
  | succ f ih =>
    intro n c hc
    by_cases h : n = 0
    · simp [natToCharsAux, h] at hc
    · rw [natToCharsAux, if_neg h, natToCharsAux_acc] at hc
      rcases List.mem_append.mp hc with hl | hr
      · exact ih (n / 10) c hl
      · refine ⟨n % 10, Nat.mod_lt _ (by norm_num), ?_⟩
        simpa using hr

theorem digitsVal_append_single (xs : List Char) (c : Char) :
    digitsVal (xs ++ [c]) = 10 * digitsVal xs + digitVal c := by
  simp [digitsVal, List.foldl_append]

theorem digitsVal_natToCharsAux :
    ∀ fuel n, n ≤ fuel → digitsVal (natToCharsAux fuel n []) = n := by
  intro fuel
  induction fuel with
  | zero =>
    intro n hn
    interval_cases n
    rfl
  | succ f ih =>
    intro n hn
    by_cases h : n = 0
    · simp [natToCharsAux, h, digitsVal]
    · have hlt : n / 10 < n := Nat.div_lt_self (Nat.pos_of_ne_zero h) (by norm_num)
      rw [natToCharsAux, if_neg h, natToCharsAux_acc, digitsVal_append_single,
        ih (n / 10) (by omega), digitVal_digitCharOf (Nat.mod_lt _ (by norm_num))]
      omega

theorem natToChars_mem {n : Nat} {c : Char} (hc : c ∈ natToChars n) :
    ∃ d, d < 10 ∧ c = digitCharOf d := by
  unfold natToChars at hc
  by_cases h : n = 0
  · rw [if_pos h] at hc
    have hc0 : c = '0' := by simpa using hc
    exact ⟨0, by norm_num, by rw [hc0]; decide⟩
  · rw [if_neg h] at hc
    exact natToCharsAux_mem (n + 1) n c hc

theorem natToChars_isDigit {n : Nat} {c : Char} (hc : c ∈ natToChars n) :
    c.isDigit = true := by
  obtain ⟨d, hd, rfl⟩ := natToChars_mem hc
  exact digitCharOf_isDigit hd

theorem digitsVal_natToChars (n : Nat) : digitsVal (natToChars n) = n := by
  unfold natToChars
  by_cases h : n = 0
  · subst h; decide
  · rw [if_neg h]
    exact digitsVal_natToCharsAux (n + 1) n (by omega)

theorem natToChars_ne_nil (n : Nat) : natToChars n ≠ [] := by
  unfold natToChars
  by_cases h : n = 0
  · simp [h]
  · rw [if_neg h, natToCharsAux, if_neg h, natToCharsAux_acc]
    simp

theorem natToChars_all_isDigit (n : Nat) :
    (natToChars n).all Char.isDigit = true := by
  rw [List.all_eq_true]
  intro c hc
  exact natToChars_isDigit hc

theorem parseNatDigits_natToChars (n : Nat) :
    parseNatDigits (natToChars n) = some n := by
  unfold parseNatDigits
  rw [if_neg (natToChars_ne_nil n), if_pos (natToChars_all_isDigit n),
    digitsVal_natToChars]

theorem natToChars_cons (n : Nat) :
    ∃ c cs, natToChars n = c :: cs := by
  match h : natToChars n with
  | [] => exact absurd h (natToChars_ne_nil n)
  | c :: cs => exact ⟨c, cs, rfl⟩

theorem parseU64_natToChars {n : Nat} (h : n < 2 ^ 64) :
    parseU64 (natToChars n) = .ok n := by
  obtain ⟨c, cs, hcons⟩ := natToChars_cons n
  have hdig : c.isDigit = true := natToChars_isDigit (hcons ▸ List.mem_cons_self c cs)
  have hall : (c :: cs).all Char.isDigit = true := hcons ▸ natToChars_all_isDigit n
  have hval : digitsVal (c :: cs) = n := hcons ▸ digitsVal_natToChars n
  rw [hcons]
  simp [parseU64, isDigit_ne_of hdig (by decide : ('+' : Char).isDigit = false),
    hall, hval, h]
  norm_num at h
  exact h

/-! ## Lemmas: string bodies and digit runs in the parser -/

theorem digits_safe {A : List Char} (h : ∀ c ∈ A, c.isDigit = true) :
    ∀ c ∈ A, ¬(c = '"' ∨ c = '\\') := by
  intro c hc hor
  rcases hor with rfl | rfl
  · exact absurd (h _ hc) (by decide)
  · exact absurd (h _ hc) (by decide)

theorem escapeChars_eq_self {s : List Char}
    (h : ∀ c ∈ s, ¬(c = '"' ∨ c = '\\')) : escapeChars s = s := by
  induction s with
  | nil => rfl
  | cons c rest ih =>
    rw [escapeChars, if_neg (h c (List.mem_cons_self c rest)),
      ih (fun x hx => h x (List.mem_cons_of_mem c hx))]

theorem parseStringBody_safe {s : List Char} (rest : List Char)
    (h : ∀ c ∈ s, ¬(c = '"' ∨ c = '\\')) :
    parseStringBody (s ++ '"' :: rest) = some (s, rest) := by
  induction s with
  | nil =>
    rw [List.nil_append, parseStringBody.eq_def]
    simp
  | cons c cs ih =>
    have hcq : ¬(c = '"') :=
      fun hq => h c (List.mem_cons_self c cs) (Or.inl hq)
    have hcb : ¬(c = '\\') :=
      fun hb => h c (List.mem_cons_self c cs) (Or.inr hb)
    rw [List.cons_append, parseStringBody.eq_def]
    simp only [if_neg hcq, if_neg hcb,
      ih (fun x hx => h x (List.mem_cons_of_mem c hx))]
    rfl

theorem takeWhile_digits_append {A : List Char} (x : Char) (r : List Char)
    (hA : ∀ c ∈ A, c.isDigit = true) (hx : x.isDigit = false) :
    (A ++ x :: r).takeWhile Char.isDigit = A ∧
      (A ++ x :: r).dropWhile Char.isDigit = x :: r := by
  induction A with
  | nil => simp [List.takeWhile_cons, List.dropWhile_cons, hx]
  | cons c cs ih =>
    have hc := hA c (List.mem_cons_self c cs)
    obtain ⟨h1, h2⟩ := ih (fun u hu => hA u (List.mem_cons_of_mem c hu))
    simp [List.takeWhile_cons, List.dropWhile_cons, hc, h1, h2]

/-! ## Lemmas: parsing the rendered overwrite document -/

theorem parseMembers_strMember (g : Nat) (key s more : List Char)
    (hkey : ∀ c ∈ key, ¬(c = '"' ∨ c = '\\'))
    (hs : ∀ c ∈ s, ¬(c = '"' ∨ c = '\\')) :
    parseMembers (g + 2) ('"' :: (key ++ '"' :: ':' :: '"' :: (s ++ '"' :: ',' :: more))) =
      (parseMembers (g + 1) more).map
        (fun p => ((String.mk key, Json.str (String.mk s)) :: p.1, p.2)) := by
  have h1 := parseStringBody_safe (':' :: '"' :: (s ++ '"' :: ',' :: more)) hkey
  have h2 := parseStringBody_safe (',' :: more) hs
  rw [parseMembers.eq_def]
  simp [h1, h2, parseValue.eq_def]

theorem parseMembers_numMemberLast (g : Nat) (key : List Char) (t : Nat)
    (hkey : ∀ c ∈ key, ¬(c = '"' ∨ c = '\\')) :
    parseMembers (g + 2) ('"' :: (key ++ '"' :: ':' :: (natToChars t ++ ['}']))) =
      some ([(String.mk key, Json.num t)], []) := by
  have h1 := parseStringBody_safe (':' :: (natToChars t ++ ['}'])) hkey
  obtain ⟨c0, cs0, hc0⟩ := natToChars_cons t
  have hall : ∀ u ∈ c0 :: cs0, u.isDigit = true :=
    fun u hu => natToChars_isDigit (hc0 ▸ hu)
  have hd0 : c0.isDigit = true := hall c0 (List.mem_cons_self c0 cs0)
  obtain ⟨htake, hdrop⟩ := takeWhile_digits_append '}' [] hall (by decide)
  obtain ⟨htake2, hdrop2⟩ :=
    takeWhile_digits_append '}' [] (fun u hu => hall u (List.mem_cons_of_mem c0 hu))
      (by decide)
  have hval : digitsVal (c0 :: cs0) = t := hc0 ▸ digitsVal_natToChars t
  simp only [hc0, List.cons_append, List.append_assoc] at h1
  rw [parseMembers.eq_def]
  simp [h1, parseValue.eq_def, hc0, hd0, htake, hdrop, htake2, hdrop2, hval]

theorem parseValue_render_serialize (f : Nat) (x : PermissionOverwrite) :
    parseValue (f + 6) (renderJson 4 x.serialize) = some (x.serialize, []) := by
  obtain ⟨allow, deny, kind⟩ := x
  have hns : ∀ n : Nat, String.mk (natToChars n) = natToStr n := fun _ => rfl
  have hdz : ∀ n : Nat, (natToStr n).data = natToChars n := fun _ => rfl
  cases kind with
  | member id =>
    have sA : ∀ c ∈ natToChars allow, ¬(c = '"' ∨ c = '\\') :=
      digits_safe (fun c hc => natToChars_isDigit hc)
    have sD : ∀ c ∈ natToChars deny, ¬(c = '"' ∨ c = '\\') :=
      digits_safe (fun c hc => natToChars_isDigit hc)
    have sI : ∀ c ∈ natToChars id.val, ¬(c = '"' ∨ c = '\\') :=
      digits_safe (fun c hc => natToChars_isDigit hc)
    have eA := escapeChars_eq_self sA
    have eD := escapeChars_eq_self sD
    have eI := escapeChars_eq_self sI
    have m4 := parseMembers_numMemberLast f "type".data 1 (by decide)
    have m3 := parseMembers_strMember (f + 1) "id".data (natToChars id.val)
      ('"' :: ("type".data ++ '"' :: ':' :: (natToChars 1 ++ ['}'])))
      (by decide) sI
    have m2 := parseMembers_strMember (f + 2) "deny".data (natToChars deny)
      ('"' :: ("id".data ++ '"' :: ':' :: '"' :: (natToChars id.val ++ '"' :: ',' ::
        ('"' :: ("type".data ++ '"' :: ':' :: (natToChars 1 ++ ['}']))))))
      (by decide) sD
    have m1 := parseMembers_strMember (f + 3) "allow".data (natToChars allow)
      ('"' :: ("deny".data ++ '"' :: ':' :: '"' :: (natToChars deny ++ '"' :: ',' ::
        ('"' :: ("id".data ++ '"' :: ':' :: '"' :: (natToChars id.val ++ '"' :: ',' ::
          ('"' :: ("type".data ++ '"' :: ':' :: (natToChars 1 ++ ['}'])))))))))
      (by decide) sA
    rw [PermissionOverwrite.serialize]
    simp [renderJson, commaJoin, Permissions.serialize, idSerialize,
      PermissionOverwriteTypeName.toU8, hdz, eA, eD, eI,
      (by decide : escapeChars "allow".data = "allow".data),
      (by decide : escapeChars "deny".data = "deny".data),
      (by decide : escapeChars "id".data = "id".data),
      (by decide : escapeChars "type".data = "type".data),
      parseValue.eq_def]
    simp at m1 m2 m3 m4
    simp [m1, m2, m3, m4, hns]
  | role id =>
    have sA : ∀ c ∈ natToChars allow, ¬(c = '"' ∨ c = '\\') :=
      digits_safe (fun c hc => natToChars_isDigit hc)
    have sD : ∀ c ∈ natToChars deny, ¬(c = '"' ∨ c = '\\') :=
      digits_safe (fun c hc => natToChars_isDigit hc)
    have sI : ∀ c ∈ natToChars id.val, ¬(c = '"' ∨ c = '\\') :=
      digits_safe (fun c hc => natToChars_isDigit hc)
    have eA := escapeChars_eq_self sA
    have eD := escapeChars_eq_self sD
    have eI := escapeChars_eq_self sI
    have m4 := parseMembers_numMemberLast f "type".data 0 (by decide)
    have m3 := parseMembers_strMember (f + 1) "id".data (natToChars id.val)
      ('"' :: ("type".data ++ '"' :: ':' :: (natToChars 0 ++ ['}'])))
      (by decide) sI
    have m2 := parseMembers_strMember (f + 2) "deny".data (natToChars deny)
      ('"' :: ("id".data ++ '"' :: ':' :: '"' :: (natToChars id.val ++ '"' :: ',' ::
        ('"' :: ("type".data ++ '"' :: ':' :: (natToChars 0 ++ ['}']))))))
      (by decide) sD
    have m1 := parseMembers_strMember (f + 3) "allow".data (natToChars allow)
      ('"' :: ("deny".data ++ '"' :: ':' :: '"' :: (natToChars deny ++ '"' :: ',' ::
        ('"' :: ("id".data ++ '"' :: ':' :: '"' :: (natToChars id.val ++ '"' :: ',' ::
          ('"' :: ("type".data ++ '"' :: ':' :: (natToChars 0 ++ ['}'])))))))))
      (by decide) sA
    rw [PermissionOverwrite.serialize]
    simp [renderJson, commaJoin, Permissions.serialize, idSerialize,
      PermissionOverwriteTypeName.toU8, hdz, eA, eD, eI,
      (by decide : escapeChars "allow".data = "allow".data),
      (by decide : escapeChars "deny".data = "deny".data),
      (by decide : escapeChars "id".data = "id".data),
      (by decide : escapeChars "type".data = "type".data),
      parseValue.eq_def]
    simp at m1 m2 m3 m4
    simp [m1, m2, m3, m4, hns]

theorem jsonParse_render_serialize (x : PermissionOverwrite) :
    jsonParse ((PermissionOverwrite.toStr x).data) = some x.serialize := by
  show jsonParse (renderJson 4 x.serialize) = some x.serialize
  unfold jsonParse
  rw [parseValue_render_serialize ((renderJson 4 x.serialize).length) x]

/-! ## Lemmas: the overwrite codec round trip -/

theorem deserialize_serialize (x : PermissionOverwrite) (h : x.valid) :
    PermissionOverwrite.deserialize x.serialize = .ok x := by
  obtain ⟨allow, deny, kind⟩ := x
  cases kind with
  | member id =>
    have hb : id.val < 2 ^ 64 := h
    simp [PermissionOverwrite.serialize, PermissionOverwrite.deserialize,
      PermissionOverwriteData.deserialize, foldOverwriteEntries, stepOverwriteEntry,
      OverwriteAcc.init, finishOverwriteData, Permissions.serialize,
      Permissions.deserialize, idSerialize, PermissionOverwriteTypeName.toU8,
      PermissionOverwriteTypeName.deserialize, parseNatDigits_natToChars,
      parseU64_natToChars hb, natToStr]
  | role id =>
    have hb : id.val < 2 ^ 64 := h
    simp [PermissionOverwrite.serialize, PermissionOverwrite.deserialize,
      PermissionOverwriteData.deserialize, foldOverwriteEntries, stepOverwriteEntry,
      OverwriteAcc.init, finishOverwriteData, Permissions.serialize,
      Permissions.deserialize, idSerialize, PermissionOverwriteTypeName.toU8,
      PermissionOverwriteTypeName.deserialize, parseNatDigits_natToChars,
      parseU64_natToChars hb, natToStr]

/-! ## Lemmas: key-order independence of the overwrite decoder -/

theorem stepOverwriteEntry_good {e : String × Json} {acc : OverwriteAcc}
    (hg : GoodOverwriteEntry e) (hf : acc.fieldSet e.1 = false) :
    stepOverwriteEntry acc e = .ok (acc.update e) := by
  obtain ⟨k, v⟩ := e
  rcases hg with ⟨hk, s, n, hv, hp⟩ | ⟨hk, s, n, hv, hp⟩ | ⟨hk, s, hv⟩ | ⟨hk, hv⟩
  · subst hk; subst hv
    simp_all [OverwriteAcc.fieldSet, OverwriteAcc.update, stepOverwriteEntry,
      Permissions.deserialize, Except.toOption]
  · subst hk; subst hv
    simp_all [OverwriteAcc.fieldSet, OverwriteAcc.update, stepOverwriteEntry,
      Permissions.deserialize, Except.toOption]
  · subst hk; subst hv
    simp_all [OverwriteAcc.fieldSet, OverwriteAcc.update, stepOverwriteEntry,
      Except.toOption]
  · subst hk
    rcases hv with rfl | rfl <;>
      simp_all [OverwriteAcc.fieldSet, OverwriteAcc.update, stepOverwriteEntry,
        PermissionOverwriteTypeName.deserialize, Except.toOption]

theorem fieldSet_update_ne {acc : OverwriteAcc} {e : String × Json} {k : String}
    (hne : k ≠ e.1) : (acc.update e).fieldSet k = acc.fieldSet k := by
  obtain ⟨ek, v⟩ := e
  simp only at hne
  unfold OverwriteAcc.update OverwriteAcc.fieldSet
  split_ifs <;> simp_all

theorem update_comm {acc : OverwriteAcc} {e₁ e₂ : String × Json}
    (hne : e₁.1 ≠ e₂.1) :
    (acc.update e₁).update e₂ = (acc.update e₂).update e₁ := by
  obtain ⟨k₁, v₁⟩ := e₁
  obtain ⟨k₂, v₂⟩ := e₂
  simp only at hne
  unfold OverwriteAcc.update
  split_ifs <;> simp_all

theorem foldOverwriteEntries_perm {l₁ l₂ : List (String × Json)} (hp : l₁.Perm l₂) :
    (∀ e ∈ l₁, GoodOverwriteEntry e) → (l₁.map Prod.fst).Nodup →
    ∀ acc : OverwriteAcc, (∀ e ∈ l₁, acc.fieldSet e.1 = false) →
      foldOverwriteEntries acc l₁ = foldOverwriteEntries acc l₂ := by
  induction hp with
  | nil => intro _ _ _ _; rfl
  | cons x hp ih =>
    intro hg hnd acc hdisj
    rw [List.map_cons] at hnd
    obtain ⟨hx1, hnd'⟩ := List.nodup_cons.mp hnd
    have hgx := hg x (List.mem_cons_self x _)
    have hax := hdisj x (List.mem_cons_self x _)
    simp only [foldOverwriteEntries, stepOverwriteEntry_good hgx hax]
    refine ih (fun e he => hg e (List.mem_cons_of_mem x he)) hnd' (acc.update x) ?_
    intro e he
    have hne : e.1 ≠ x.1 := fun hEq => hx1 (hEq ▸ List.mem_map_of_mem Prod.fst he)
    rw [fieldSet_update_ne hne]
    exact hdisj e (List.mem_cons_of_mem x he)
  | swap x y l =>
    intro hg hnd acc hdisj
    rw [List.map_cons, List.map_cons] at hnd
    obtain ⟨hy1, hnd'⟩ := List.nodup_cons.mp hnd
    have hne : y.1 ≠ x.1 := fun hEq => hy1 (hEq ▸ List.mem_cons_self x.1 _)
    have hgy := hg y (List.mem_cons_self y _)
    have hgx := hg x (List.mem_cons_of_mem y (List.mem_cons_self x _))
    have hay := hdisj y (List.mem_cons_self y _)
    have hax := hdisj x (List.mem_cons_of_mem y (List.mem_cons_self x _))
    have hfyx : (acc.update y).fieldSet x.1 = false := by
      rw [fieldSet_update_ne (Ne.symm hne)]
      exact hax
    have hfxy : (acc.update x).fieldSet y.1 = false := by
      rw [fieldSet_update_ne hne]
      exact hay
    have s1 := stepOverwriteEntry_good hgy hay
    have s2 := stepOverwriteEntry_good hgx hfyx
    have s3 := stepOverwriteEntry_good hgx hax
    have s4 := stepOverwriteEntry_good hgy hfxy
    simp only [foldOverwriteEntries, s1, s2, s3, s4]
    rw [update_comm hne]
  | trans hp₁ hp₂ ih₁ ih₂ =>
    intro hg hnd acc hdisj
    rw [ih₁ hg hnd acc hdisj]
    refine ih₂ (fun e he => hg e (hp₁.symm.subset he))
      (((hp₁.map Prod.fst).nodup_iff).mp hnd) acc
      (fun e he => hdisj e (hp₁.symm.subset he))

/-! ## Lemmas: decoding the canonical overwrite wire object -/

theorem fieldSet_init (k : String) : OverwriteAcc.init.fieldSet k = false := by
  unfold OverwriteAcc.init OverwriteAcc.fieldSet
  split_ifs <;> rfl

theorem deserialize_overwriteWire_num1 (a d i : String) {na nd idn : Nat}
    (ha : parseNatDigits a.data = some na) (hd : parseNatDigits d.data = some nd)
    (hi : parseU64 i.data = .ok idn) :
    PermissionOverwrite.deserialize (overwriteWire a d i (Json.num 1)) =
      .ok ⟨na, nd, .member ⟨idn⟩⟩ := by
  simp [overwriteWire, PermissionOverwrite.deserialize,
    PermissionOverwriteData.deserialize, foldOverwriteEntries, stepOverwriteEntry,
    OverwriteAcc.init, finishOverwriteData, Permissions.deserialize,
    PermissionOverwriteTypeName.deserialize, ha, hd, hi]

theorem deserialize_overwriteWire_num0 (a d i : String) {na nd idn : Nat}
    (ha : parseNatDigits a.data = some na) (hd : parseNatDigits d.data = some nd)
    (hi : parseU64 i.data = .ok idn) :
    PermissionOverwrite.deserialize (overwriteWire a d i (Json.num 0)) =
      .ok ⟨na, nd, .role ⟨idn⟩⟩ := by
  simp [overwriteWire, PermissionOverwrite.deserialize,
    PermissionOverwriteData.deserialize, foldOverwriteEntries, stepOverwriteEntry,
    OverwriteAcc.init, finishOverwriteData, Permissions.deserialize,
    PermissionOverwriteTypeName.deserialize, ha, hd, hi]

theorem deserialize_num0_role (a d i : String) (x : PermissionOverwrite)
    (h : PermissionOverwrite.deserialize (overwriteWire a d i (Json.num 0)) = .ok x) :
    ∃ id, x.kind = PermissionOverwriteType.role id := by
  rcases hA : parseNatDigits a.data with _ | na
  · simp [overwriteWire, PermissionOverwrite.deserialize,
      PermissionOverwriteData.deserialize, foldOverwriteEntries, stepOverwriteEntry,
      OverwriteAcc.init, Permissions.deserialize, hA] at h
  rcases hD : parseNatDigits d.data with _ | nd
  · simp [overwriteWire, PermissionOverwrite.deserialize,
      PermissionOverwriteData.deserialize, foldOverwriteEntries, stepOverwriteEntry,
      OverwriteAcc.init, Permissions.deserialize, hA, hD] at h
  rcases hI : parseU64 i.data with e | idn
  · simp [overwriteWire, PermissionOverwrite.deserialize,
      PermissionOverwriteData.deserialize, foldOverwriteEntries, stepOverwriteEntry,
      OverwriteAcc.init, finishOverwriteData, Permissions.deserialize,
      PermissionOverwriteTypeName.deserialize, hA, hD, hI] at h
  · rw [deserialize_overwriteWire_num0 a d i hA hD hI] at h
    have hx : PermissionOverwrite.mk na nd (.role ⟨idn⟩) = x := by simpa using h
    exact ⟨⟨idn⟩, by rw [← hx]⟩

theorem deserialize_num1_member (a d i : String) (x : PermissionOverwrite)
    (h : PermissionOverwrite.deserialize (overwriteWire a d i (Json.num 1)) = .ok x) :
    ∃ id, x.kind = PermissionOverwriteType.member id := by
  rcases hA : parseNatDigits a.data with _ | na
  · simp [overwriteWire, PermissionOverwrite.deserialize,
      PermissionOverwriteData.deserialize, foldOverwriteEntries, stepOverwriteEntry,
      OverwriteAcc.init, Permissions.deserialize, hA] at h
  rcases hD : parseNatDigits d.data with _ | nd
  · simp [overwriteWire, PermissionOverwrite.deserialize,
      PermissionOverwriteData.deserialize, foldOverwriteEntries, stepOverwriteEntry,
      OverwriteAcc.init, Permissions.deserialize, hA, hD] at h
  rcases hI : parseU64 i.data with e | idn
  · simp [overwriteWire, PermissionOverwrite.deserialize,
      PermissionOverwriteData.deserialize, foldOverwriteEntries, stepOverwriteEntry,
      OverwriteAcc.init, finishOverwriteData, Permissions.deserialize,
      PermissionOverwriteTypeName.deserialize, hA, hD, hI] at h
  · rw [deserialize_overwriteWire_num1 a d i hA hD hI] at h
    have hx : PermissionOverwrite.mk na nd (.member ⟨idn⟩) = x := by simpa using h
    exact ⟨⟨idn⟩, by rw [← hx]⟩

theorem tname_fails {v : Json} (h0 : v ≠ Json.num 0) (h1 : v ≠ Json.num 1) :
    ∃ e, PermissionOverwriteTypeName.deserialize v = .error e := by
  cases v with
  | num n =>
    have hn0 : n ≠ 0 := fun h => h0 (by rw [h])
    have hn1 : n ≠ 1 := fun h => h1 (by rw [h])
    match n, hn0, hn1 with
    | k + 2, _, _ => exact ⟨.invalidDiscriminant (k + 2), rfl⟩
  | null => exact ⟨.invalidType, rfl⟩
  | bool b => exact ⟨.invalidType, rfl⟩
  | str s => exact ⟨.invalidType, rfl⟩
  | arr es => exact ⟨.invalidType, rfl⟩
  | obj ms => exact ⟨.invalidType, rfl⟩

theorem deserialize_overwriteWire_badType (a d i : String) {v : Json}
    (h0 : v ≠ Json.num 0) (h1 : v ≠ Json.num 1) :
    ∃ err, PermissionOverwrite.deserialize (overwriteWire a d i v) = .error err := by
  obtain ⟨et, ht⟩ := tname_fails h0 h1
  rcases hA : parseNatDigits a.data with _ | na
  · exact ⟨.invalidFlags, by
      simp [overwriteWire, PermissionOverwrite.deserialize,
        PermissionOverwriteData.deserialize, foldOverwriteEntries, stepOverwriteEntry,
        OverwriteAcc.init, Permissions.deserialize, hA]⟩
  rcases hD : parseNatDigits d.data with _ | nd
  · exact ⟨.invalidFlags, by
      simp [overwriteWire, PermissionOverwrite.deserialize,
        PermissionOverwriteData.deserialize, foldOverwriteEntries, stepOverwriteEntry,
        OverwriteAcc.init, Permissions.deserialize, hA, hD]⟩
  · exact ⟨et, by
      simp [overwriteWire, PermissionOverwrite.deserialize,
        PermissionOverwriteData.deserialize, foldOverwriteEntries, stepOverwriteEntry,
        OverwriteAcc.init, Permissions.deserialize, hA, hD, ht]⟩

theorem deserialize_overwriteWire_badId (a d i : String) {na nd : Nat} {t : Json}
    {e : ParseIntErr} (ha : parseNatDigits a.data = some na)
    (hd : parseNatDigits d.data = some nd)
    (ht : t = Json.num 0 ∨ t = Json.num 1)
    (hi : parseU64 i.data = .error e) :
    PermissionOverwrite.deserialize (overwriteWire a d i t) =
      .error (.parseIntErr e) := by
  rcases ht with rfl | rfl <;>
    simp [overwriteWire, PermissionOverwrite.deserialize,
      PermissionOverwriteData.deserialize, foldOverwriteEntries, stepOverwriteEntry,
      OverwriteAcc.init, finishOverwriteData, Permissions.deserialize,
      PermissionOverwriteTypeName.deserialize, ha, hd, hi]

/-! ## Lemmas: the embed image codec and the encoded discriminant -/

theorem embedImage_roundtrip (x : EmbedImage)
    (hh : ∀ n, x.height = some n → n < 2 ^ 64)
    (hw : ∀ n, x.width = some n → n < 2 ^ 64) :
    EmbedImage.deserialize x.serialize = .ok x := by
  obtain ⟨oh, op, ou, ow⟩ := x
  simp only at hh hw
  cases oh <;> cases op <;> cases ou <;> cases ow <;>
    simp_all [EmbedImage.serialize, EmbedImage.serializeEntries,
      EmbedImage.deserialize, foldImageEntries, stepImageEntry, ImageAcc.init,
      optU64Deserialize, optStrDeserialize]

theorem embedImage_dropNull (x : EmbedImage)
    (hh : ∀ n, x.height = some n → n < 2 ^ 64)
    (hw : ∀ n, x.width = some n → n < 2 ^ 64) :
    EmbedImage.deserialize
        (Json.obj (x.serializeEntries.filter (fun e => !e.2.isNull))) = .ok x := by
  obtain ⟨oh, op, ou, ow⟩ := x
  simp only at hh hw
  cases oh <;> cases op <;> cases ou <;> cases ow <;>
    simp_all [EmbedImage.serializeEntries, EmbedImage.deserialize, Json.isNull,
      foldImageEntries, stepImageEntry, ImageAcc.init,
      optU64Deserialize, optStrDeserialize]

theorem serialize_type_member (x : PermissionOverwrite) (id : UserId)
    (h : x.kind = .member id) :
    (PermissionOverwrite.serialize x).objLookup "type" = some (Json.num 1) := by
  obtain ⟨al, de, k⟩ := x
  simp only at h
  subst h
  simp [PermissionOverwrite.serialize, Json.objLookup,
    PermissionOverwriteTypeName.toU8]

theorem serialize_type_role (x : PermissionOverwrite) (id : RoleId)
    (h : x.kind = .role id) :
    (PermissionOverwrite.serialize x).objLookup "type" = some (Json.num 0) := by
  obtain ⟨al, de, k⟩ := x
  simp only at h
  subst h
  simp [PermissionOverwrite.serialize, Json.objLookup,
    PermissionOverwriteTypeName.toU8]

/-! ## The claims -/

/-- C1: for every envelope header (operation code, optional sequence,
optional event name) and every syntactically valid message text, the
byte-preserving engine and the in-place mutating engine return equal
results, so they produce structurally equal `GatewayEvent` values and the
caller cannot observe which engine is compiled in. -/
theorem engines_agree_on_valid_text (op : Nat) (sequence : Option Nat)
    (event_type : Option String) (json : String) (j : Json)
    (h : jsonParse json.data = some j) :
    parse_gateway_event_serde op sequence event_type json =
      parse_gateway_event_simd op sequence event_type json := by
  unfold parse_gateway_event_serde parse_gateway_event_simd
  rw [h]

theorem engines_agree_on_valid_text_witness :
    jsonParse ("\x7b\"op\":0\x7d" : String).data = some (Json.obj [("op", Json.num 0)]) ∧
    parse_gateway_event_serde 0 (some 1) (some "EXAMPLE") "\x7b\"op\":0\x7d" =
      parse_gateway_event_simd 0 (some 1) (some "EXAMPLE") "\x7b\"op\":0\x7d" :=
  ⟨rfl, engines_agree_on_valid_text 0 (some 1) (some "EXAMPLE") "\x7b\"op\":0\x7d"
    (Json.obj [("op", Json.num 0)]) rfl⟩

/-- C2 counterexample: on the syntactically invalid text `"@"` the
byte-preserving engine returns the `Deserializing` error but the in-place
engine returns `PayloadInvalid` — a different variant, refuting the claim
that both engines return `Deserializing` on every invalid text. -/
theorem invalid_text_error_variants_differ_cex :
    jsonParse ("@" : String).data = none ∧
    parse_gateway_event_serde 7 none none "@" =
      .error (.deserializing .synErr) ∧
    parse_gateway_event_simd 7 none none "@" = .error .payloadInvalid ∧
    ∀ e : JsonError,
      GatewayEventParsingError.payloadInvalid ≠ .deserializing e :=
  ⟨rfl, rfl, rfl, fun _ h => GatewayEventParsingError.noConfusion h⟩

/-- C2 (amended): for every input text that is not syntactically valid
structured data, the byte-preserving engine returns the `Deserializing`
error while the in-place engine returns `PayloadInvalid`; neither engine
returns a success value, so no partially constructed event is
observable. -/
theorem invalid_text_both_engines_fail (op : Nat) (sequence : Option Nat)
    (event_type : Option String) (json : String)
    (h : jsonParse json.data = none) :
    parse_gateway_event_serde op sequence event_type json =
      .error (.deserializing .synErr) ∧
    parse_gateway_event_simd op sequence event_type json =
      .error .payloadInvalid := by
  unfold parse_gateway_event_serde parse_gateway_event_simd
  rw [h]
  exact ⟨rfl, rfl⟩

theorem invalid_text_both_engines_fail_witness :
    jsonParse ("@" : String).data = none ∧
    parse_gateway_event_serde 0 none (some "EXAMPLE") "@" =
      .error (.deserializing .synErr) ∧
    parse_gateway_event_simd 0 none (some "EXAMPLE") "@" =
      .error .payloadInvalid :=
  ⟨rfl, invalid_text_both_engines_fail 0 none (some "EXAMPLE") "@" rfl⟩

/-- C3: decoding the encoding of any valid `PermissionOverwrite` (any
allow and deny flag sets, kind either `Member` or `Role`) returns a value
equal to the original. -/
theorem overwrite_decode_encode_roundtrip (x : PermissionOverwrite)
    (h : x.valid) :
    PermissionOverwrite.deserialize (PermissionOverwrite.serialize x) =
      .ok x :=
  deserialize_serialize x h

theorem overwrite_decode_encode_roundtrip_witness :
    (PermissionOverwrite.mk 5 (2 ^ 80 + 3)
        (.member ⟨12345678⟩)).valid ∧
    PermissionOverwrite.deserialize (PermissionOverwrite.serialize
        (PermissionOverwrite.mk 5 (2 ^ 80 + 3) (.member ⟨12345678⟩))) =
      .ok (PermissionOverwrite.mk 5 (2 ^ 80 + 3) (.member ⟨12345678⟩)) :=
  ⟨by decide, overwrite_decode_encode_roundtrip _ (by decide)⟩

/-- C4: every string produced by the overwrite codec's own encoder
decodes successfully, and re-encoding the decoded value is byte-identical
to the original string: the key order `allow, deny, id, type` and the
string-encoded integers (including flag values beyond 64-bit width) are
reproduced exactly. -/
theorem overwrite_encode_byte_stable (x : PermissionOverwrite)
    (h : x.valid) :
    ∃ y, PermissionOverwrite.fromStr (PermissionOverwrite.toStr x) = .ok y ∧
      PermissionOverwrite.toStr y = PermissionOverwrite.toStr x := by
  refine ⟨x, ?_, rfl⟩
  unfold PermissionOverwrite.fromStr
  rw [jsonParse_render_serialize x]
  exact deserialize_serialize x h

theorem overwrite_encode_byte_stable_witness :
    (PermissionOverwrite.mk (2 ^ 70 + 1) 2 (.role ⟨3⟩)).valid ∧
    PermissionOverwrite.toStr
        (PermissionOverwrite.mk (2 ^ 70 + 1) 2 (.role ⟨3⟩)) =
      "\x7b\"allow\":\"1180591620717411303425\",\"deny\":\"2\",\"id\":\"3\",\"type\":0\x7d" ∧
    ∃ y, PermissionOverwrite.fromStr (PermissionOverwrite.toStr
        (PermissionOverwrite.mk (2 ^ 70 + 1) 2 (.role ⟨3⟩))) = .ok y ∧
      PermissionOverwrite.toStr y = PermissionOverwrite.toStr
        (PermissionOverwrite.mk (2 ^ 70 + 1) 2 (.role ⟨3⟩)) :=
  ⟨by decide, by decide,
    overwrite_encode_byte_stable _ (by decide)⟩

/-- C5: the wire discriminant maps `type = 0` to the role identifier
domain and `type = 1` to the member identifier domain, on decode (a
successfully decoded wire object with that discriminant has its kind in
the matching domain) and on encode (the emitted `type` value is 0 for
`Role`, 1 for `Member`). -/
theorem overwrite_discriminant_mapping :
    (∀ a d i x, PermissionOverwrite.deserialize
        (overwriteWire a d i (Json.num 0)) = .ok x →
        ∃ id, x.kind = PermissionOverwriteType.role id) ∧
    (∀ a d i x, PermissionOverwrite.deserialize
        (overwriteWire a d i (Json.num 1)) = .ok x →
        ∃ id, x.kind = PermissionOverwriteType.member id) ∧
    (∀ x id, x.kind = PermissionOverwriteType.role id →
        (PermissionOverwrite.serialize x).objLookup "type" =
          some (Json.num 0)) ∧
    (∀ x id, x.kind = PermissionOverwriteType.member id →
        (PermissionOverwrite.serialize x).objLookup "type" =
          some (Json.num 1)) :=
  ⟨deserialize_num0_role, deserialize_num1_member,
    serialize_type_role, serialize_type_member⟩

theorem overwrite_discriminant_mapping_witness :
    ∃ id, (PermissionOverwrite.mk 1 2
        (.role ⟨12345678⟩)).kind = PermissionOverwriteType.role id :=
  overwrite_discriminant_mapping.1 "1" "2" "12345678"
    ⟨1, 2, .role ⟨12345678⟩⟩ (by decide)

/-- C6: a wire object whose `type` value is anything other than the
integers 0 and 1 fails to decode with an error (the spec's `Malformed`),
and no overwrite value is constructed; scenario B is the witness. -/
theorem overwrite_unknown_discriminant_fails (a d i : String) (v : Json)
    (h0 : v ≠ Json.num 0) (h1 : v ≠ Json.num 1) :
    ∃ err, PermissionOverwrite.deserialize (overwriteWire a d i v) =
      .error err :=
  deserialize_overwriteWire_badType a d i h0 h1

theorem overwrite_unknown_discriminant_fails_witness :
    jsonParse ("\x7b\"allow\":\"1\",\"deny\":\"2\",\"id\":\"12345678\",\"type\":9\x7d" :
        String).data =
      some (overwriteWire "1" "2" "12345678" (Json.num 9)) ∧
    ∃ err, PermissionOverwrite.deserialize
        (overwriteWire "1" "2" "12345678" (Json.num 9)) = .error err :=
  ⟨rfl, overwrite_unknown_discriminant_fails "1" "2" "12345678" (Json.num 9)
    (by simp) (by simp)⟩

/-- C7: a wire object whose `allow`, `deny` and `type` fields are
acceptable but whose `id` string does not parse as an unsigned 64-bit
integer fails to decode with the error carrying the underlying integer
parse cause (`DeError::custom(parse_error)`), and no overwrite value is
constructed. -/
theorem overwrite_bad_id_parse_cause (a d i : String) (na nd : Nat)
    (t : Json) (e : ParseIntErr)
    (ha : parseNatDigits a.data = some na)
    (hd : parseNatDigits d.data = some nd)
    (ht : t = Json.num 0 ∨ t = Json.num 1)
    (hi : parseU64 i.data = .error e) :
    PermissionOverwrite.deserialize (overwriteWire a d i t) =
      .error (.parseIntErr e) :=
  deserialize_overwriteWire_badId a d i ha hd ht hi

theorem overwrite_bad_id_parse_cause_witness :
    PermissionOverwrite.deserialize
        (overwriteWire "1" "2" "not-a-number" (Json.num 1)) =
      .error (.parseIntErr .invalidDigit) :=
  overwrite_bad_id_parse_cause "1" "2" "not-a-number" 1 2 (Json.num 1)
    .invalidDigit (by decide) (by decide) (Or.inr rfl) (by decide)

/-- C8, scenario A: the concrete input decodes to a member-tagged
overwrite with raw id 12345678, allow flags with exactly bit 0 set (the
value 1) and deny flags with exactly bit 1 set (the value 2), and
re-encoding that value reproduces the identical string, field order
included. -/
theorem overwrite_scenario_a :
    PermissionOverwrite.fromStr
        "\x7b\"allow\":\"1\",\"deny\":\"2\",\"id\":\"12345678\",\"type\":1\x7d" =
      .ok ⟨1, 2, .member ⟨12345678⟩⟩ ∧
    PermissionOverwrite.toStr ⟨1, 2, .member ⟨12345678⟩⟩ =
      "\x7b\"allow\":\"1\",\"deny\":\"2\",\"id\":\"12345678\",\"type\":1\x7d" := by
  decide

/-- C9: the decoder does not require the fixed wire key order — every
permutation of the four entries of a valid wire object decodes to
exactly what the canonical order `allow, deny, id, type` decodes to, and
the canonical order decodes successfully; only encode fixes the order. -/
theorem overwrite_key_order_immaterial (a d i : String)
    (na nd idn t : Nat) (l : List (String × Json))
    (ha : parseNatDigits a.data = some na)
    (hd : parseNatDigits d.data = some nd)
    (hi : parseU64 i.data = .ok idn)
    (ht : t = 0 ∨ t = 1)
    (hp : l.Perm [("allow", Json.str a), ("deny", Json.str d),
      ("id", Json.str i), ("type", Json.num t)]) :
    PermissionOverwrite.deserialize (Json.obj l) =
      PermissionOverwrite.deserialize (overwriteWire a d i (Json.num t)) ∧
    ∃ x, PermissionOverwrite.deserialize
      (overwriteWire a d i (Json.num t)) = .ok x := by
  have hgood : ∀ e ∈ l, GoodOverwriteEntry e := by
    intro e he
    have hmem := hp.subset he
    simp only [List.mem_cons, List.not_mem_nil, or_false] at hmem
    rcases hmem with rfl | rfl | rfl | rfl
    · exact Or.inl ⟨rfl, a, na, rfl, ha⟩
    · exact Or.inr (Or.inl ⟨rfl, d, nd, rfl, hd⟩)
    · exact Or.inr (Or.inr (Or.inl ⟨rfl, i, rfl⟩))
    · refine Or.inr (Or.inr (Or.inr ⟨rfl, ?_⟩))
      rcases ht with rfl | rfl
      · exact Or.inl rfl
      · exact Or.inr rfl
  have hnd : (l.map Prod.fst).Nodup := by
    refine ((hp.map Prod.fst).nodup_iff).mpr ?_
    simp
  have hfold := foldOverwriteEntries_perm hp hgood hnd OverwriteAcc.init
    (fun e _ => fieldSet_init e.1)
  constructor
  · simp only [PermissionOverwrite.deserialize,
      PermissionOverwriteData.deserialize, overwriteWire, hfold]
  · rcases ht with rfl | rfl
    · exact ⟨_, deserialize_overwriteWire_num0 a d i ha hd hi⟩
    · exact ⟨_, deserialize_overwriteWire_num1 a d i ha hd hi⟩

theorem overwrite_key_order_immaterial_witness :
    PermissionOverwrite.deserialize (Json.obj [("type", Json.num 1),
        ("id", Json.str "12345678"), ("deny", Json.str "2"),
        ("allow", Json.str "1")]) =
      PermissionOverwrite.deserialize
        (overwriteWire "1" "2" "12345678" (Json.num 1)) ∧
    ∃ x, PermissionOverwrite.deserialize
      (overwriteWire "1" "2" "12345678" (Json.num 1)) = .ok x :=
  overwrite_key_order_immaterial "1" "2" "12345678" 1 2 12345678 1 _
    (by decide) (by decide) (by decide) (Or.inr rfl)
    (by simpa using List.reverse_perm [("allow", Json.str "1"),
      ("deny", Json.str "2"), ("id", Json.str "12345678"),
      ("type", Json.num 1)])

/-- C10: the serialization of an `EmbedImage` has exactly the keys
`height`, `proxy_url`, `url`, `width` in that order (an absent field is
emitted as `null`); decoding the serialization returns a value equal to
the original; and dropping the null-valued entries — so that the absent
keys are missing from the document — still decodes to the original,
i.e. a missing optional key decodes to the absent value. -/
theorem embed_image_codec (x : EmbedImage)
    (hh : ∀ n, x.height = some n → n < 2 ^ 64)
    (hw : ∀ n, x.width = some n → n < 2 ^ 64) :
    (EmbedImage.serialize x).objKeys =
      ["height", "proxy_url", "url", "width"] ∧
    EmbedImage.deserialize (EmbedImage.serialize x) = .ok x ∧
    EmbedImage.deserialize
        (Json.obj (x.serializeEntries.filter (fun e => !e.2.isNull))) =
      .ok x :=
  ⟨rfl, embedImage_roundtrip x hh hw, embedImage_dropNull x hh hw⟩

theorem embed_image_codec_witness :
    (EmbedImage.serialize ⟨some 1440, some "p", none, some 2560⟩).objKeys =
      ["height", "proxy_url", "url", "width"] ∧
    EmbedImage.deserialize (EmbedImage.serialize
        ⟨some 1440, some "p", none, some 2560⟩) =
      .ok ⟨some 1440, some "p", none, some 2560⟩ ∧
    EmbedImage.deserialize (Json.obj
        ((⟨some 1440, some "p", none, some 2560⟩ :
          EmbedImage).serializeEntries.filter (fun e => !e.2.isNull))) =
      .ok ⟨some 1440, some "p", none, some 2560⟩ :=
  embed_image_codec _ (fun n h => by cases Option.some.inj h; norm_num)
    (fun n h => by cases Option.some.inj h; norm_num)
